import Mathlib

/-!
Verification development for the ai-dungeon-master repository.

The development shallowly embeds the tool-dispatch core of the repository:
the dice engine (spec §4.1-§4.2; the module rpg_dm/utilities/dice.py is not
part of the provided sources, so it is modelled from the spec), the session
log and scene lifecycle (spec §3/§6; rpg_dm/memory is likewise not provided),
the tool executor and dispatch loops of rpg_dm/agents/dm_agent.py, and the
streaming accumulation of rpg_dm/llm/client.py.

Python conventions are made explicit: dictionary access that can raise
KeyError is modelled with Except, Python truthiness of optional strings and
lists is modelled by explicit truthiness functions, and the model/transport
layer is a parameter (a function from call index to response).
-/

deriving instance DecidableEq for Except

namespace RpgDm

/-- Errors of the modelled dice-expression reader, one kind per failure
condition listed in spec §4.1. -/
inductive ParseError
  | missingSeparator
  | nonNumericSides
  | zeroCount
  | zeroSides
  | badKeepDigits
  | keepZero
  | keepTooLarge
  | badModifierDigits
  | trailingChars
deriving DecidableEq

/-- Keep-clause kind: keep-highest (kh) or keep-lowest (kl). -/
inductive KeepKind
  | highest
  | lowest
deriving DecidableEq

/-- Modelled from the spec: the structured dice expression of spec §3
(rpg_dm/utilities/dice.py is not among the provided sources). -/
structure DiceExpression where
  count : Nat
  sides : Nat
  keep : Option (KeepKind × Nat)
  modifier : Int
deriving DecidableEq

/-- Modelled from the spec: the roll result record of spec §3. -/
structure RollResult where
  individual_rolls : List Nat
  kept_rolls : List Nat
  modifier : Int
  total : Int
  details : String
deriving DecidableEq

/-- Digit characters to a natural number (base 10). -/
def digitsToNat (ds : List Char) : Nat :=
  ds.foldl (fun a c => a * 10 + (c.toNat - 48)) 0

/-- Split a character list into its leading digit run and the rest. -/
def takeDigits (cs : List Char) : List Char × List Char :=
  (cs.takeWhile Char.isDigit, cs.dropWhile Char.isDigit)

/-- Modelled from the spec: the optional trailing modifier of spec §4.1,
an explicit sign followed by a digit sequence, with trailing unrecognized
characters rejected. -/
def parseModifier (cs : List Char) : Except ParseError Int :=
  match cs with
  | [] => .ok 0
  | '+' :: rest =>
    let (mds, rest2) := takeDigits rest
    if mds = [] then .error .badModifierDigits
    else if rest2 = [] then .ok (Int.ofNat (digitsToNat mds))
    else .error .trailingChars
  | '-' :: rest =>
    let (mds, rest2) := takeDigits rest
    if mds = [] then .error .badModifierDigits
    else if rest2 = [] then .ok (-(Int.ofNat (digitsToNat mds)))
    else .error .trailingChars
  | _ => .error .trailingChars

/-- Modelled from the spec: the digits of a keep clause, which must be at
least 1 and at most the die count (spec §4.1). -/
def parseKeepDigits (kind : KeepKind) (count : Nat) (cs : List Char) :
    Except ParseError (Option (KeepKind × Nat) × List Char) :=
  let (nds, rest) := takeDigits cs
  if nds = [] then .error .badKeepDigits
  else
    let n := digitsToNat nds
    if n = 0 then .error .keepZero
    else if count < n then .error .keepTooLarge
    else .ok (some (kind, n), rest)

/-- Modelled from the spec: the optional keep clause kh-n or kl-n of
spec §4.1. -/
def parseKeep (count : Nat) (cs : List Char) :
    Except ParseError (Option (KeepKind × Nat) × List Char) :=
  match cs with
  | 'k' :: 'h' :: rest => parseKeepDigits .highest count rest
  | 'k' :: 'l' :: rest => parseKeepDigits .lowest count rest
  | _ => .ok (none, cs)

/-- ASCII lowercasing of one character, for the case-insensitive grammar. -/
def lowerChar (c : Char) : Char :=
  if c.isUpper then Char.ofNat (c.toNat + 32) else c

/-- Modelled from the spec: NotationParser.parse of spec §4.1. Grammar
(case-insensitive): optional count, the separator d, required sides, an
optional keep clause, an optional signed modifier. Total and pure. -/
def parse (txt : String) : Except ParseError DiceExpression :=
  let cs := txt.toList.map lowerChar
  let (cdigits, rest) := takeDigits cs
  match rest with
  | [] => .error .missingSeparator
  | c :: rest1 =>
    if c = 'd' then
      let count := if cdigits = [] then 1 else digitsToNat cdigits
      if count = 0 then .error .zeroCount
      else
        let (sdigits, rest2) := takeDigits rest1
        if sdigits = [] then .error .nonNumericSides
        else
          let sides := digitsToNat sdigits
          if sides = 0 then .error .zeroSides
          else
            match parseKeep count rest2 with
            | .error e => .error e
            | .ok (keep, rest3) =>
              match parseModifier rest3 with
              | .error e => .error e
              | .ok m => .ok { count := count, sides := sides, keep := keep, modifier := m }
    else .error .missingSeparator

/-- Modelled from the spec: draw count independent values in the range 1..sides
from a replaceable random source, here an infinite tape addressed by a
cursor (spec §4.2 requires the source be replaceable and deterministic
under a fixed seed). -/
def drawRolls (rng : Nat → Nat) (cur count sides : Nat) : List Nat :=
  (List.range count).map (fun i => rng (cur + i) % sides + 1)

/-- Insert into a descending-sorted list, before the first element less than
or equal to the inserted one (so an earlier roll precedes equal later
ones). -/
def insertByDesc (x : Nat) : List Nat → List Nat
  | [] => [x]
  | y :: ys => if x < y then y :: insertByDesc x ys else x :: y :: ys

/-- Stable descending insertion sort. -/
def sortDesc : List Nat → List Nat
  | [] => []
  | x :: xs => insertByDesc x (sortDesc xs)

/-- Insert into an ascending-sorted list, before the first element greater
than or equal to the inserted one. -/
def insertByAsc (x : Nat) : List Nat → List Nat
  | [] => [x]
  | y :: ys => if y < x then y :: insertByAsc x ys else x :: y :: ys

/-- Stable ascending insertion sort. -/
def sortAsc : List Nat → List Nat
  | [] => []
  | x :: xs => insertByAsc x (sortAsc xs)

/-- Modelled from the spec: keep selection, top or bottom n by value with ties
broken by original roll order earliest first (stable sort), spec §4.2. -/
def selectKept (keep : Option (KeepKind × Nat)) (rolls : List Nat) : List Nat :=
  match keep with
  | none => rolls
  | some (.highest, n) => (sortDesc rolls).take n
  | some (.lowest, n) => (sortAsc rolls).take n

/-- Render a list of rolls for the human-readable details string. -/
def renderRolls (l : List Nat) : String :=
  "[" ++ String.intercalate "," (l.map toString) ++ "]"

/-- Render a modifier with an explicit sign. -/
def renderModifier (m : Int) : String :=
  if m < 0 then toString m else "+" ++ toString m

/-- Modelled from the spec: one normal-mode evaluation of a parsed expression
(spec §4.2): draw the dice, apply the keep clause, and sum the kept values
plus the modifier. Returns the result and the advanced tape cursor. -/
def evalNormal (rng : Nat → Nat) (cur : Nat) (e : DiceExpression) (txt : String) :
    RollResult × Nat :=
  let rolls := drawRolls rng cur e.count e.sides
  let kept := selectKept e.keep rolls
  let total : Int := (kept.sum : Int) + e.modifier
  ({ individual_rolls := rolls
   , kept_rolls := kept
   , modifier := e.modifier
   , total := total
   , details := txt ++ ": " ++ renderRolls rolls ++ " keep " ++ renderRolls kept ++
       " " ++ renderModifier e.modifier ++ " = " ++ toString total }
  , cur + e.count)

/-- Errors raised by the modelled dice roller: a parse failure, or requesting
advantage/disadvantage together with a keep clause (spec §4.2 usage error). -/
inductive RollError
  | parseErr (e : ParseError)
  | advantageWithKeep
deriving DecidableEq

/-- Modelled from the spec: DiceRoller.roll — parse then evaluate in normal
mode. -/
def roll (rng : Nat → Nat) (cur : Nat) (txt : String) :
    Except RollError (RollResult × Nat) :=
  match parse txt with
  | .error e => .error (.parseErr e)
  | .ok e => .ok (evalNormal rng cur e txt)

/-- Modelled from the spec: DiceRoller.advantage — rejected if the expression
has a keep clause; otherwise evaluate twice and select the draw with the
higher total, retaining both draws in the details (spec §4.2). -/
def advantage (rng : Nat → Nat) (cur : Nat) (txt : String) :
    Except RollError (RollResult × Nat) :=
  match parse txt with
  | .error e => .error (.parseErr e)
  | .ok e =>
    if e.keep.isSome then .error .advantageWithKeep
    else
      let p1 := evalNormal rng cur e txt
      let p2 := evalNormal rng p1.2 e txt
      let chosen := if p1.1.total < p2.1.total then p2.1 else p1.1
      .ok ({ chosen with
              details := "Advantage: " ++ p1.1.details ++ " | " ++ p2.1.details ++
                " -> " ++ toString chosen.total }, p2.2)

/-- Modelled from the spec: DiceRoller.disadvantage — as advantage but the
draw with the lower total is selected (spec §4.2). -/
def disadvantage (rng : Nat → Nat) (cur : Nat) (txt : String) :
    Except RollError (RollResult × Nat) :=
  match parse txt with
  | .error e => .error (.parseErr e)
  | .ok e =>
    if e.keep.isSome then .error .advantageWithKeep
    else
      let p1 := evalNormal rng cur e txt
      let p2 := evalNormal rng p1.2 e txt
      let chosen := if p2.1.total < p1.1.total then p2.1 else p1.1
      .ok ({ chosen with
              details := "Disadvantage: " ++ p1.1.details ++ " | " ++ p2.1.details ++
                " -> " ++ toString chosen.total }, p2.2)

/-- A logged session event (kind, content, actor, free-form metadata),
spec §6. -/
structure Event where
  event_type : String
  content : String
  actor : String
  metadata : List (String × String)
deriving DecidableEq

/-- A narrative scene (spec §3): id, title, location, active flag and the
summary stored when the scene ends. -/
structure Scene where
  scene_id : Nat
  title : String
  location : String
  is_active : Bool
  summary : Option String
deriving DecidableEq

/-- The session-owned mutable state visible to the tool handlers: the event
log, the ended scenes, the at-most-one active scene, a scene counter used
for fresh ids, and the cursor into the random tape of the dice roller. -/
structure AgentState where
  events : List Event
  endedScenes : List Scene
  currentScene : Option Scene
  sceneCount : Nat
  rngCursor : Nat
deriving DecidableEq

/-- The empty initial session state. -/
def initState : AgentState :=
  { events := [], endedScenes := [], currentScene := none, sceneCount := 0, rngCursor := 0 }

/-- Modelled from the spec: SessionLog.log_event — append an event to the
session log (spec §6; rpg_dm/memory is not among the provided sources). -/
def log_event (st : AgentState) (et content actor : String)
    (md : List (String × String)) : AgentState :=
  { st with events := st.events ++ [{ event_type := et, content := content, actor := actor, metadata := md }] }

/-- Modelled from the spec: SessionLog.start_scene — implicitly end any
active scene, then create and activate a fresh scene (spec §3 lifecycle),
returning the new scene. -/
def start_scene (st : AgentState) (title location : String) : Scene × AgentState :=
  let st1 :=
    match st.currentScene with
    | some sc =>
      { st with endedScenes := st.endedScenes ++ [{ sc with is_active := false }]
              , currentScene := none }
    | none => st
  let sc : Scene :=
    { scene_id := st1.sceneCount + 1, title := title, location := location
    , is_active := true, summary := none }
  (sc, { st1 with currentScene := some sc, sceneCount := st1.sceneCount + 1 })

/-- Modelled from the spec: SessionLog.end_scene — mark the active scene
ended and store the summary (spec §3 lifecycle); no active scene is a
no-op. -/
def end_scene (st : AgentState) (summary : Option String) : AgentState :=
  match st.currentScene with
  | some sc =>
    { st with currentScene := none
            , endedScenes := st.endedScenes ++ [{ sc with is_active := false, summary := summary }] }
  | none => st

/-- Modelled from the spec: SessionLog.get_context_for_llm — a textual
summary of the session history (spec §6). The exact rendering is not
claim-relevant; recent events are rendered one per line. -/
def getContextForLLM (st : AgentState) : String :=
  String.intercalate "\n" (st.events.map (fun e => e.actor ++ ": " ++ e.content))

/-- Python truthiness of an optional string: None and the empty string are
falsy. -/
def truthyStr : Option String → Bool
  | none => false
  | some s => !(s = "")

/-- Python x or d for an optional string x and a string default d. -/
def pyOrStr (o : Option String) (d : String) : String :=
  match o with
  | some s => if s = "" then d else s
  | none => d

/-- Python truthiness of an optional list: None and the empty list are
falsy. -/
def truthyList {α : Type} : Option (List α) → Bool
  | none => false
  | some l => !l.isEmpty

/-- Whether an Except value is a success. -/
def exceptOk {ε α : Type} : Except ε α → Bool
  | .ok _ => true
  | .error _ => false

/-- Tool arguments: a string-keyed mapping. The base tools of this agent
carry only string-valued arguments. -/
abbrev Args := List (String × String)

/-- A function call within a tool call (llm/types.py). -/
structure FunctionCall where
  name : String
  arguments : Args
deriving DecidableEq

/-- A tool call made by the model (llm/types.py). -/
structure ToolCall where
  id : String
  type : String
  function : FunctionCall
deriving DecidableEq

/-- Python exceptions that can escape the tool executor: a KeyError from a
missing required argument key, or an error raised by the dice roller. -/
inductive PyErr
  | keyError (k : String)
  | diceError (e : RollError)
deriving DecidableEq

/-- A single quote character, used in the result strings of the source. -/
def sq : String := "\x27"

/-- Embeds DMAgent._execute_tool (dm_agent.py:289-449) for an agent
constructed without a campaign manager: the guards at dm_agent.py:342, 377,
404 and 425 all require self.campaign_manager and are false for such an
agent, so those branches fall through to the final else. Python dictionary
subscripting of a required key is modelled with Except (a missing key is a
KeyError), dict.get with a lookup and a default. -/
def execute_tool (rng : Nat → Nat) (st : AgentState) (tool_name : String)
    (arguments : Args) : Except PyErr (String × AgentState) :=
  if tool_name = "roll_dice" then
    match arguments.lookup "notation" with
    | none => .error (.keyError "notation")
    | some nt =>
      let roll_type := (arguments.lookup "roll_type").getD "normal"
      match arguments.lookup "purpose" with
      | none => .error (.keyError "purpose")
      | some purpose =>
        let rolled :=
          if roll_type = "advantage" then advantage rng st.rngCursor nt
          else if roll_type = "disadvantage" then disadvantage rng st.rngCursor nt
          else roll rng st.rngCursor nt
        match rolled with
        | .error e => .error (.diceError e)
        | .ok (result, cur) =>
          let st1 := { st with rngCursor := cur }
          let st2 := log_event st1 "dice_roll" (purpose ++ ": " ++ result.details) "DM"
            [("notation", nt), ("roll_type", roll_type), ("total", toString result.total)]
          .ok ("Roll result: " ++ result.details, st2)
  else if tool_name = "start_scene" then
    match arguments.lookup "title" with
    | none => .error (.keyError "title")
    | some title =>
      match arguments.lookup "location" with
      | none => .error (.keyError "location")
      | some location =>
        let (sc, st1) := start_scene st title location
        .ok ("Started new scene: " ++ sq ++ title ++ sq ++ " at " ++ location ++
          " (Scene ID: " ++ toString sc.scene_id ++ ")", st1)
  else if tool_name = "end_scene" then
    let summary := arguments.lookup "summary"
    let st1 := end_scene st summary
    .ok ("Ended current scene. Summary: " ++
      (if truthyStr summary then summary.getD "" else "None"), st1)
  else if tool_name = "log_event" then
    match arguments.lookup "event_type" with
    | none => .error (.keyError "event_type")
    | some et =>
      match arguments.lookup "content" with
      | none => .error (.keyError "content")
      | some content =>
        let actor := (arguments.lookup "actor").getD "system"
        let st1 := log_event st et content actor []
        .ok ("Logged " ++ et ++ " event: " ++ content.take 50 ++ "...", st1)
  else
    .ok ("Unknown tool: " ++ tool_name, st)

/-- A declared tool: its function name and its required argument keys. The
free-text descriptions and full JSON parameter schemas of the source are
narrative data (spec §1 puts prompt text out of scope) and are elided. -/
structure ToolDef where
  name : String
  required : List String
deriving DecidableEq

/-- The four base tool declarations returned at dm_agent.py:95-195, in source
order, with the required keys of each parameter schema. -/
def baseTools : List ToolDef :=
  [ { name := "roll_dice", required := ["notation", "purpose"] }
  , { name := "start_scene", required := ["title", "location"] }
  , { name := "end_scene", required := [] }
  , { name := "log_event", required := ["event_type", "content"] } ]

/-- The names of the campaign tools declared in the block at
dm_agent.py:197-287. -/
def campaignToolNames : List String :=
  ["track_npc", "track_location", "add_plot_thread", "update_plot_thread"]

/-- Embeds DMAgent.get_tools (dm_agent.py:89-287). The body returns the four
base tool definitions with the return statement at line 95; the campaign-tool
block at lines 197-287 sits after that unconditional return and never
executes, so the result does not depend on whether a campaign manager was
supplied at construction. -/
def get_tools (_campaignManagerPresent : Bool) : List ToolDef :=
  baseTools

/-- Chat message roles (llm/types.py). -/
inductive ChatRole
  | system
  | user
  | assistant
  | tool
deriving DecidableEq

/-- A chat message (llm/types.py). The name field is never set by the agent
and is elided. -/
structure ChatMessage where
  role : ChatRole
  content : Option String
  tool_call_id : Option String := none
  tool_calls : Option (List ToolCall) := none
deriving DecidableEq

/-- A buffered model response (llm/types.py LLMResponse); finish_reason and
usage are not read by the dispatch loop and are elided. -/
structure LLMResponse where
  content : Option String
  tool_calls : Option (List ToolCall)
deriving DecidableEq

/-- A chunk of a streamed model response (llm/types.py StreamChunk). -/
structure StreamChunk where
  content : Option String
  tool_calls : Option (List ToolCall)
  finish_reason : Option String
deriving DecidableEq

/-- The outcome of a completed (non-truncated) DMAgent.respond run: the
returned narration, the number of model calls issued, the final message
list, the final session state, and a ghost trace of the executed tool calls
(name and result string, in execution order) recorded for observability. -/
structure RespondResult where
  final : String
  modelCalls : Nat
  messages : List ChatMessage
  state : AgentState
  toolTrace : List (String × String)
deriving DecidableEq

/-- The tool-result message appended at dm_agent.py:557-559: role tool, the
result string as content, tagged with the correlation id of the call. -/
def toolResultMsg (callId result : String) : ChatMessage :=
  { role := .tool, content := some result, tool_call_id := some callId }

/-- The assistant message appended at dm_agent.py:544-550: role assistant,
content response.content or the empty string, and the tool-call list of the
response preserved. -/
def assistantMsg (resp : LLMResponse) (tcs : List ToolCall) : ChatMessage :=
  { role := .assistant, content := some (pyOrStr resp.content ""), tool_calls := some tcs }

/-- Embeds the inner for-loop of dm_agent.py:553-559: execute each tool call
in the order received and append one tool-result message per call; an
exception aborts the whole turn. The last component accumulates the ghost
execution trace. -/
def toolLoop (rng : Nat → Nat) :
    List ToolCall → List ChatMessage → AgentState → List (String × String) →
    Except PyErr (List ChatMessage × AgentState × List (String × String))
  | [], msgs, st, tr => .ok (msgs, st, tr)
  | tc :: rest, msgs, st, tr =>
    match execute_tool rng st tc.function.name tc.function.arguments with
    | .error e => .error e
    | .ok (result, st1) =>
      toolLoop rng rest (msgs ++ [toolResultMsg tc.id result]) st1
        (tr ++ [(tc.function.name, result)])

/-- Embeds one body of the while-loop of dm_agent.py:541-559: append the
assistant message carrying the tool-call list, then execute the calls in
order, appending one result message each. -/
def respondRound (rng : Nat → Nat) (msgs : List ChatMessage) (st : AgentState)
    (resp : LLMResponse) :
    Except PyErr (List ChatMessage × AgentState × List (String × String)) :=
  let tcs := resp.tool_calls.getD []
  toolLoop rng tcs (msgs ++ [assistantMsg resp tcs]) st []

/-- Embeds the loop exit at dm_agent.py:570-576: when the response carries no
tool calls, log a narration event exactly when the content is truthy and
return the content (or the empty string). -/
def respondExit (k : Nat) (msgs : List ChatMessage) (st : AgentState)
    (resp : LLMResponse) (tr : List (String × String)) :
    Except PyErr (Option RespondResult) :=
  let st1 :=
    if truthyStr resp.content then
      log_event st "narration" (resp.content.getD "") "DM" []
    else st
  .ok (some { final := resp.content.getD "", modelCalls := k, messages := msgs
            , state := st1, toolTrace := tr })

/-- Embeds the while-loop of dm_agent.py:541-568. The source loop has no
round bound, so the embedding carries an explicit fuel argument; exhausting
the fuel while the response still carries tool calls returns none, marking
that the source loop is still running after that many rounds. The counter k
is the number of model calls issued so far; the next model call is llm k. -/
def respondLoop (rng : Nat → Nat) (llm : Nat → LLMResponse) :
    Nat → Nat → List ChatMessage → AgentState → LLMResponse →
    List (String × String) → Except PyErr (Option RespondResult)
  | 0, k, msgs, st, resp, tr =>
    if truthyList resp.tool_calls then .ok none
    else respondExit k msgs st resp tr
  | Nat.succ n, k, msgs, st, resp, tr =>
    if truthyList resp.tool_calls then
      match respondRound rng msgs st resp with
      | .error e => .error e
      | .ok (msgs1, st1, tr1) =>
        respondLoop rng llm n (k + 1) msgs1 st1 (llm k) (tr ++ tr1)
    else respondExit k msgs st resp tr

/-- The system prompt head of dm_agent.py:45-87; the full narrative text is
out of scope (spec §1) and is elided beyond its first line. -/
def systemPrompt : String :=
  "You are an expert Dungeon Master running a tabletop RPG game."

/-- The initial message list built at dm_agent.py:512-529: the player action
is logged, then system prompt, session context and the user message. -/
def initialMessages (playerMessage : String) (st : AgentState) : List ChatMessage :=
  [ { role := .system, content := some systemPrompt }
  , { role := .system, content := some ("Session context:\n" ++ getContextForLLM st) }
  , { role := .user, content := some playerMessage } ]

/-- Embeds DMAgent.respond (dm_agent.py:503-576). The model and transport are
a parameter llm mapping the index of a chat call to its response; fuel bounds
the number of tool-resolution rounds the embedding will unfold (the source
has no such bound). -/
def respond (rng : Nat → Nat) (llm : Nat → LLMResponse) (fuel : Nat)
    (playerMessage : String) (st : AgentState) :
    Except PyErr (Option RespondResult) :=
  let st0 := log_event st "player_action" playerMessage "Player" []
  let msgs := initialMessages playerMessage st0
  respondLoop rng llm fuel 1 msgs st0 (llm 0) []

/-- Python x or None for a string x: the empty string becomes None. -/
def pyOrNone (s : String) : Option String :=
  if s = "" then none else some s

/-- Embeds the first streaming for-loop of dm_agent.py:624-640: accumulate
content (yielding each delta), extend the accumulated tool calls, and break
once a chunk carries a truthy finish reason. Returns the accumulated
content, the accumulated tool calls, and the yields so far. -/
def streamTurn : List StreamChunk → String → List ToolCall → List String →
    String × List ToolCall × List String
  | [], accC, accT, ys => (accC, accT, ys)
  | ch :: rest, accC, accT, ys =>
    let accC1 := if truthyStr ch.content then accC ++ ch.content.getD "" else accC
    let ys1 := if truthyStr ch.content then ys ++ [ch.content.getD ""] else ys
    let accT1 := if truthyList ch.tool_calls then accT ++ ch.tool_calls.getD [] else accT
    if truthyStr ch.finish_reason then (accC1, accT1, ys1)
    else streamTurn rest accC1 accT1 ys1

/-- Embeds the tool-execution for-loop of dm_agent.py:655-661: execute each
accumulated call in order, append its result message, and yield a bracketed
result marker to the consumer. The last component is the ghost execution
trace. -/
def streamToolLoop (rng : Nat → Nat) :
    List ToolCall → List ChatMessage → AgentState → List String →
    List (String × String) →
    Except PyErr (List ChatMessage × AgentState × List String × List (String × String))
  | [], msgs, st, ys, tr => .ok (msgs, st, ys, tr)
  | tc :: rest, msgs, st, ys, tr =>
    match execute_tool rng st tc.function.name tc.function.arguments with
    | .error e => .error e
    | .ok (result, st1) =>
      streamToolLoop rng rest (msgs ++ [toolResultMsg tc.id result]) st1
        (ys ++ ["\n[" ++ tc.function.name ++ ": " ++ result ++ "]\n"])
        (tr ++ [(tc.function.name, result)])

/-- Embeds the follow-up streaming for-loop of dm_agent.py:664-674: only
content deltas are accumulated and yielded; tool-call deltas and finish
reasons of these chunks are never consulted. -/
def secondTurn : List StreamChunk → String → List String → String × List String
  | [], accC, ys => (accC, ys)
  | ch :: rest, accC, ys =>
    if truthyStr ch.content then
      secondTurn rest (accC ++ ch.content.getD "") (ys ++ [ch.content.getD ""])
    else secondTurn rest accC ys

/-- The outcome of a DMAgent.respond_stream run: everything yielded to the
consumer in order, the final session state, the number of model calls
issued, and the ghost trace of executed tool calls. -/
structure StreamResult where
  yields : List String
  state : AgentState
  modelCalls : Nat
  toolTrace : List (String × String)
deriving DecidableEq

/-- Embeds DMAgent.respond_stream (dm_agent.py:578-680) for an agent without
a campaign manager (the campaign-context block at lines 604-609 appends
nothing since _get_campaign_context returns the empty string). The streamed
model transport is a parameter mapping the index of a chat_stream call to
its chunk list. If the first turn accumulates tool calls, one round of
execution runs (yielding each result) followed by exactly one follow-up
model call whose chunks contribute content only. -/
def respond_stream (rng : Nat → Nat) (streams : Nat → List StreamChunk)
    (playerMessage : String) (st : AgentState) : Except PyErr StreamResult :=
  let st0 := log_event st "player_action" playerMessage "Player" []
  let msgs := initialMessages playerMessage st0
  let (accC, accT, ys) := streamTurn (streams 0) "" [] []
  if accT.isEmpty then
    let st1 := if accC = "" then st0 else log_event st0 "narration" accC "DM" []
    .ok { yields := ys, state := st1, modelCalls := 1, toolTrace := [] }
  else
    let msgs1 := msgs ++
      [{ role := .assistant, content := pyOrNone accC, tool_calls := some accT }]
    match streamToolLoop rng accT msgs1 st0 ys [] with
    | .error e => .error e
    | .ok (_, st1, ys1, tr) =>
      let (accC2, ys2) := secondTurn (streams 1) "" ys1
      let st2 := if accC2 = "" then st1 else log_event st1 "narration" accC2 "DM" []
      .ok { yields := ys2, state := st2, modelCalls := 2, toolTrace := tr }

/-- A partial function delta within a streamed tool-call delta
(client.py:211-219). -/
structure FunctionDelta where
  name : Option String
  arguments : Option String
deriving DecidableEq

/-- A streamed tool-call delta, keyed by positional index
(client.py:197-219). -/
structure ToolCallDelta where
  index : Nat
  id : Option String
  type : Option String
  function : Option FunctionDelta
deriving DecidableEq

/-- The delta choice within a raw provider chunk (client.py:186-222). -/
structure DeltaChoice where
  content : Option String
  tool_calls : Option (List ToolCallDelta)
  finish_reason : Option String
deriving DecidableEq

/-- A raw provider chunk; chunks with an empty choice list are skipped
(client.py:183-184). -/
structure RawChunk where
  choices : List DeltaChoice
deriving DecidableEq

/-- The in-progress builder for one accumulated tool call
(client.py:200-205): id, type, name and the argument text so far. -/
structure Builder where
  id : String
  type : String
  name : String
  arguments : String
deriving DecidableEq

/-- Apply one tool-call delta to a builder (client.py:207-219): overwrite id,
type and name whenever a truthy value arrives, and append a truthy argument
fragment to the argument text. -/
def mergeDelta (b : Builder) (d : ToolCallDelta) : Builder :=
  let b1 := if truthyStr d.id then { b with id := d.id.getD "" } else b
  let b2 := if truthyStr d.type then { b1 with type := d.type.getD "" } else b1
  match d.function with
  | none => b2
  | some f =>
    let b3 := if truthyStr f.name then { b2 with name := f.name.getD "" } else b2
    if truthyStr f.arguments then { b3 with arguments := b3.arguments ++ f.arguments.getD "" }
    else b3

/-- Map one entry of the insertion-ordered accumulator (a Python dict keyed
by positional index). -/
def updateAt (acc : List (Nat × Builder)) (i : Nat) (f : Builder → Builder) :
    List (Nat × Builder) :=
  acc.map (fun p => if p.1 = i then (p.1, f p.2) else p)

/-- Process one tool-call delta against the accumulator (client.py:198-219):
insert a fresh builder on the first sight of an index, then apply the
delta's updates. Python dicts preserve insertion order, modelled by an
association list extended at the end. -/
def applyDelta (acc : List (Nat × Builder)) (d : ToolCallDelta) : List (Nat × Builder) :=
  let acc1 :=
    if (acc.lookup d.index).isSome then acc
    else acc ++ [(d.index,
      { id := pyOrStr d.id "", type := pyOrStr d.type "function", name := "", arguments := "" })]
  updateAt acc1 d.index (fun b => mergeDelta b d)

/-- Finalize one builder into a structured tool call (client.py:225-237): the
argument text is handed to the JSON decoder (a parameter pj standing for
json.loads) only here, with the empty text decoding to the empty mapping. -/
def finalizeBuilder (pj : String → Args) (b : Builder) : ToolCall :=
  { id := b.id, type := b.type
  , function := { name := b.name, arguments := if b.arguments = "" then [] else pj b.arguments } }

/-- Process one raw provider chunk (client.py:182-243): skip chunks without
choices; yield a content chunk for a truthy content delta; fold the tool-call
deltas into the accumulator; and on a truthy finish reason yield a final
chunk carrying the finalized tool calls (or none when the accumulator is
empty). -/
def processChunk (pj : String → Args)
    (s : List (Nat × Builder) × List StreamChunk) (rc : RawChunk) :
    List (Nat × Builder) × List StreamChunk :=
  match rc.choices with
  | [] => s
  | choice :: _ =>
    let acc := s.1
    let outs := s.2
    let outs1 :=
      if truthyStr choice.content then
        outs ++ [{ content := choice.content, tool_calls := none
                 , finish_reason := choice.finish_reason }]
      else outs
    let acc1 :=
      if truthyList choice.tool_calls then (choice.tool_calls.getD []).foldl applyDelta acc
      else acc
    if truthyStr choice.finish_reason then
      let tcs :=
        if acc1.isEmpty then none
        else some (acc1.map (fun p => finalizeBuilder pj p.2))
      (acc1, outs1 ++ [{ content := none, tool_calls := tcs
                       , finish_reason := choice.finish_reason }])
    else (acc1, outs1)

/-- Embeds LLMClient.chat_stream's accumulation loop (client.py:180-243): the
sequence of StreamChunk values yielded for a given sequence of raw provider
chunks, starting from an empty accumulator. -/
def chat_stream (pj : String → Args) (chunks : List RawChunk) : List StreamChunk :=
  (chunks.foldl (processChunk pj) ([], [])).2

/-- Spec-level description of executing a list of tool calls strictly in the
order received, threading the session state, and collecting the result
string of each call (spec §4.4, §5). -/
def seqResults (rng : Nat → Nat) : AgentState → List ToolCall →
    Except PyErr (List String × AgentState)
  | st, [] => .ok ([], st)
  | st, tc :: rest =>
    match execute_tool rng st tc.function.name tc.function.arguments with
    | .error e => .error e
    | .ok (r, st1) =>
      match seqResults rng st1 rest with
      | .error e => .error e
      | .ok (rs, st2) => .ok (r :: rs, st2)

/-- Sufficient condition for a roll_dice tool call to execute without an
exception: both required keys present, the dice text parses, and an
advantage or disadvantage roll has no keep clause. -/
def rollArgsOk (args : Args) : Bool :=
  match args.lookup "notation" with
  | none => false
  | some nt =>
    match args.lookup "purpose" with
    | none => false
    | some _ =>
      let rt := (args.lookup "roll_type").getD "normal"
      match parse nt with
      | .error _ => false
      | .ok e =>
        if rt = "advantage" || rt = "disadvantage" then e.keep.isNone else true

/-- Erase the tool-call payload of every chunk of a stream, keeping content
and finish reason. -/
def stripCalls (cs : List StreamChunk) : List StreamChunk :=
  cs.map (fun c => { c with tool_calls := none })

/-- The content yielded from the follow-up model call of respond_stream:
empty when the first turn accumulated no tool calls (no follow-up call is
made), else the truthy content deltas of the second stream. -/
def followUpYields (streams : Nat → List StreamChunk) : List String :=
  if ((streamTurn (streams 0) "" [] []).2.1).isEmpty then []
  else (secondTurn (streams 1) "" []).2

/-- The last truthy value of a list of optional strings, or the default when
none is truthy: the value left by a sequence of overwrite-if-truthy
updates. -/
def lastTruthy (d : String) : List (Option String) → String
  | [] => d
  | o :: rest => lastTruthy (if truthyStr o then o.getD "" else d) rest

/-- The sub-sequence of tool-call deltas carrying a given positional
index. -/
def deltasFor (i : Nat) (ds : List ToolCallDelta) : List ToolCallDelta :=
  ds.filter (fun d => d.index == i)

/-- The argument text fragment carried by a delta (empty when absent). -/
def fragOf (d : ToolCallDelta) : String :=
  (d.function.bind FunctionDelta.arguments).getD ""

/-- The name fragment carried by a delta. -/
def nameOf (d : ToolCallDelta) : Option String :=
  d.function.bind FunctionDelta.name

/-- Concatenation of the argument text fragments of a delta list, in
order. -/
def concatFrags : List ToolCallDelta → String
  | [] => ""
  | d :: rest => fragOf d ++ concatFrags rest

/-- Spec-level description of the accumulated builder for one positional
index (claim of spec §4.4: arguments text fragments concatenated in order,
id, type and name overwritten whenever a truthy value arrives). -/
def mergedBuilder (ds : List ToolCallDelta) : Builder :=
  { id := lastTruthy "" (ds.map ToolCallDelta.id)
  , type := lastTruthy "function" (ds.map ToolCallDelta.type)
  , name := lastTruthy "" (ds.map nameOf)
  , arguments := concatFrags ds }

/-- The builder state before any delta has been applied. -/
def initBuilder : Builder :=
  { id := "", type := "function", name := "", arguments := "" }

/-- The tool-call deltas contributed by one raw chunk (those the client loop
folds into the accumulator). -/
def deltasOfChunk (rc : RawChunk) : List ToolCallDelta :=
  match rc.choices with
  | [] => []
  | ch :: _ => if truthyList ch.tool_calls then ch.tool_calls.getD [] else []

/-- All tool-call deltas of a chunk sequence, in arrival order. -/
def allDeltas : List RawChunk → List ToolCallDelta
  | [] => []
  | rc :: rest => deltasOfChunk rc ++ allDeltas rest

/-- Whether a raw chunk signals turn completion (its first choice carries a
truthy finish reason). -/
def chunkFinish (rc : RawChunk) : Bool :=
  match rc.choices with
  | [] => false
  | ch :: _ => truthyStr ch.finish_reason

/-- A fixed random tape: every draw yields the minimum face. -/
def rng0 : Nat → Nat := fun _ => 0

/-- A well-formed roll_dice tool call, as in the repository's tests. -/
def tcRoll : ToolCall :=
  { id := "call_1", type := "function"
  , function := { name := "roll_dice"
                , arguments := [("notation", "d20"), ("purpose", "Attack"), ("roll_type", "normal")] } }

/-- A well-formed start_scene tool call. -/
def tcScene : ToolCall :=
  { id := "call_2", type := "function"
  , function := { name := "start_scene", arguments := [("title", "A"), ("location", "X")] } }

/-- A well-formed log_event tool call. -/
def tcLog : ToolCall :=
  { id := "call_3", type := "function"
  , function := { name := "log_event"
                , arguments := [("event_type", "system"), ("content", "noted"), ("actor", "DM")] } }

/-- The response of a model that always requests a dice roll. -/
def alwaysResp : LLMResponse :=
  { content := some "Rolling...", tool_calls := some [tcRoll] }

/-- A model that answers every chat call with a tool-call-carrying response
(the round-limit scenario of spec §8). -/
def alwaysRoll : Nat → LLMResponse := fun _ => alwaysResp

/-- A model that answers every chat call with plain narration. -/
def llmNarration : Nat → LLMResponse :=
  fun _ => { content := some "You enter the tavern.", tool_calls := none }

/-- A model whose first response carries a single roll_dice call and whose
second response is tool-call-free narration (the two-call scenario of
spec §8). -/
def llmTwoCall : Nat → LLMResponse := fun i =>
  if i = 0 then { content := some "Rolling...", tool_calls := some [tcRoll] }
  else { content := some "The attack hits!", tool_calls := none }

/-- Streamed scripts where the first turn ends with a roll_dice call and the
follow-up turn itself carries a start_scene call: a probe for whether the
streamed variant resubmits follow-up tool calls. -/
def demoStreams : Nat → List StreamChunk := fun i =>
  if i = 0 then
    [ { content := some "Rolling...", tool_calls := none, finish_reason := none }
    , { content := none, tool_calls := some [tcRoll], finish_reason := some "tool_calls" } ]
  else
    [ { content := some "More", tool_calls := some [tcScene], finish_reason := some "tool_calls" } ]

/-- A stand-in JSON decoder used to instantiate the chat_stream parameter in
concrete runs: it records the raw text it was handed. -/
def pjDemo : String → Args := fun s => [("raw", s)]

/-- The result string of executing tcRoll on the rng0 tape. -/
def rollResStr : String := "Roll result: d20: [1] keep [1] +0 = 1"

/-- The result string of executing tcLog. -/
def logResStr : String := "Logged system event: noted..."

/-- The observed outcome of respond_stream on demoStreams: two model calls,
one executed tool (the follow-up start_scene call is never executed: no
scene exists in the final state and the trace holds only roll_dice). -/
def rDemo : StreamResult :=
  { yields := ["Rolling...", "\n[roll_dice: " ++ rollResStr ++ "]\n", "More"]
  , state :=
    { events :=
      [ { event_type := "player_action", content := "go", actor := "Player", metadata := [] }
      , { event_type := "dice_roll", content := "Attack: d20: [1] keep [1] +0 = 1"
        , actor := "DM"
        , metadata := [("notation", "d20"), ("roll_type", "normal"), ("total", "1")] }
      , { event_type := "narration", content := "More", actor := "DM", metadata := [] } ]
    , endedScenes := [], currentScene := none, sceneCount := 0, rngCursor := 1 }
  , modelCalls := 2
  , toolTrace := [("roll_dice", rollResStr)] }

/-- A response carrying two tool calls, to exercise ordered execution. -/
def respDemo : LLMResponse :=
  { content := some "Rolling...", tool_calls := some [tcRoll, tcLog] }

/-- The message list appended by one round on respDemo from the empty list. -/
def msgsDemo : List ChatMessage :=
  [ assistantMsg respDemo [tcRoll, tcLog]
  , toolResultMsg "call_1" rollResStr
  , toolResultMsg "call_3" logResStr ]

/-- The state after executing respDemo's calls from the initial state. -/
def stDemo : AgentState :=
  { events :=
    [ { event_type := "dice_roll", content := "Attack: d20: [1] keep [1] +0 = 1"
      , actor := "DM"
      , metadata := [("notation", "d20"), ("roll_type", "normal"), ("total", "1")] }
    , { event_type := "system", content := "noted", actor := "DM", metadata := [] } ]
  , endedScenes := [], currentScene := none, sceneCount := 0, rngCursor := 1 }

/-- The execution trace of respDemo's round. -/
def trDemo : List (String × String) :=
  [("roll_dice", rollResStr), ("log_event", logResStr)]

/-- The roll result of 2d6-3 on the rng0 tape: a negative-modifier witness
for the total invariant. -/
def rollNegDemo : RollResult :=
  { individual_rolls := [1, 1], kept_rolls := [1, 1], modifier := -3, total := -1
  , details := "2d6-3: [1,1] keep [1,1] -3 = -1" }

/-- A first streamed tool-call delta: index 0, id and name known, first
argument-text fragment. -/
def deltaA : ToolCallDelta :=
  { index := 0, id := some "call_1", type := none
  , function := some { name := some "roll_dice", arguments := some "ab" } }

/-- A continuation delta for the same index: only more argument text. -/
def deltaB : ToolCallDelta :=
  { index := 0, id := none, type := none
  , function := some { name := none, arguments := some "cd" } }

/-- A mid-stream raw chunk carrying content and the first delta, without a
finish reason. -/
def bodyDemo : List RawChunk :=
  [{ choices := [{ content := some "Hi", tool_calls := some [deltaA], finish_reason := none }] }]

/-- The final choice: the second delta together with the finish signal. -/
def lcDemo : DeltaChoice :=
  { content := none, tool_calls := some [deltaB], finish_reason := some "tool_calls" }

/-- A roll_dice tool call whose arguments omit the required notation key. -/
def tcBadRoll : ToolCall :=
  { id := "call_9", type := "function"
  , function := { name := "roll_dice", arguments := [("purpose", "x")] } }

/-- A model that requests the key-less roll_dice call. -/
def llmBadRoll : Nat → LLMResponse :=
  fun _ => { content := some "", tool_calls := some [tcBadRoll] }

/-- demoStreams with the tool calls of every follow-up stream erased. -/
def demoStreamsStripped : Nat → List StreamChunk := fun i =>
  if i = 0 then demoStreams 0 else stripCalls (demoStreams i)

/-- The raw chunk sequence of the accumulation demo: a mid-stream chunk with
content and the first delta, then a finish chunk with the second delta. -/
def demoChunks : List RawChunk := bodyDemo ++ [{ choices := [lcDemo] }]

/-- The tool call accumulated from deltaA and deltaB and finalized through
pjDemo: fragments ab and cd concatenated, then decoded. -/
def tcAccum : ToolCall :=
  { id := "call_1", type := "function"
  , function := { name := "roll_dice", arguments := [("raw", "abcd")] } }

/-- The finish chunk chat_stream yields on demoChunks. -/
def finishChunkDemo : StreamChunk :=
  { content := none, tool_calls := some [tcAccum], finish_reason := some "tool_calls" }

theorem evalNormal_invariant (rng : Nat → Nat) (cur : Nat) (e : DiceExpression)
    (txt : String) :
    ((evalNormal rng cur e txt).1).total =
      ((((evalNormal rng cur e txt).1).kept_rolls.sum : Int) +
        ((evalNormal rng cur e txt).1).modifier) :=
  rfl

theorem exec_roll_missing_nt (rng : Nat → Nat) (st : AgentState) (args : Args)
    (h : args.lookup "notation" = none) :
    execute_tool rng st "roll_dice" args = .error (.keyError "notation") := by
  simp [execute_tool, h]

/-- C4: for every DMAgent, with or without a campaign manager, get_tools
returns exactly roll_dice, start_scene, end_scene, log_event in that order,
and no campaign tool ever appears, because the campaign-tool block follows
the unconditional return at dm_agent.py:95. -/
theorem get_tools_base_only : ∀ present : Bool,
    (get_tools present).map ToolDef.name =
      ["roll_dice", "start_scene", "end_scene", "log_event"] ∧
    campaignToolNames.all
      (fun n => !(((get_tools present).map ToolDef.name).contains n)) = true := by
  intro present
  exact ⟨rfl, rfl⟩

/-- C9: a tool name matching none of the four registered tools (which for an
agent without a campaign manager includes the campaign tool names) produces
the sentinel result string Unknown tool and leaves the session state
unchanged, instead of raising. -/
theorem unknown_tool_sentinel (rng : Nat → Nat) (st : AgentState) (tn : String)
    (args : Args) (h : (baseTools.map ToolDef.name).contains tn = false) :
    execute_tool rng st tn args = .ok ("Unknown tool: " ++ tn, st) := by
  by_cases h1 : tn = "roll_dice"
  · subst h1; exact absurd h (by decide)
  by_cases h2 : tn = "start_scene"
  · subst h2; exact absurd h (by decide)
  by_cases h3 : tn = "end_scene"
  · subst h3; exact absurd h (by decide)
  by_cases h4 : tn = "log_event"
  · subst h4; exact absurd h (by decide)
  simp [execute_tool, h1, h2, h3, h4]

theorem unknown_tool_sentinel_witness :
    (baseTools.map ToolDef.name).contains "track_npc" = false ∧
    execute_tool rng0 initState "track_npc" [] =
      .ok ("Unknown tool: track_npc", initState) :=
  ⟨by decide, unknown_tool_sentinel rng0 initState "track_npc" [] (by decide)⟩

/-- C10: every roll result produced by the modelled dice roller, in normal,
advantage or disadvantage mode, satisfies total = sum of kept rolls plus
modifier, computed from the kept rolls of that very result, negative
modifiers included. -/
theorem roll_total_invariant :
    (∀ rng cur txt r cur2, roll rng cur txt = .ok (r, cur2) →
      r.total = ((r.kept_rolls.sum : Int) + r.modifier)) ∧
    (∀ rng cur txt r cur2, advantage rng cur txt = .ok (r, cur2) →
      r.total = ((r.kept_rolls.sum : Int) + r.modifier)) ∧
    (∀ rng cur txt r cur2, disadvantage rng cur txt = .ok (r, cur2) →
      r.total = ((r.kept_rolls.sum : Int) + r.modifier)) := by
  refine ⟨?_, ?_, ?_⟩
  · intro rng cur txt r cur2 h
    unfold roll at h
    cases hp : parse txt with
    | error e => rw [hp] at h; exact absurd h (by simp)
    | ok e =>
      rw [hp] at h
      simp only [Except.ok.injEq] at h
      have hr : r = (evalNormal rng cur e txt).1 := by rw [h]
      rw [hr]; exact evalNormal_invariant rng cur e txt
  · intro rng cur txt r cur2 h
    cases hp : parse txt with
    | error e => simp [advantage, hp] at h
    | ok e =>
      by_cases hk : e.keep.isSome
      · simp [advantage, hp, hk] at h
      · simp only [advantage, hp, hk, Bool.false_eq_true, if_false,
          Except.ok.injEq, Prod.mk.injEq] at h
        obtain ⟨hr, -⟩ := h
        rw [← hr]
        by_cases hlt : ((evalNormal rng cur e txt).1).total <
            ((evalNormal rng ((evalNormal rng cur e txt).2) e txt).1).total
        · simp only [if_pos hlt]
          exact evalNormal_invariant rng ((evalNormal rng cur e txt).2) e txt
        · simp only [if_neg hlt]
          exact evalNormal_invariant rng cur e txt
  · intro rng cur txt r cur2 h
    cases hp : parse txt with
    | error e => simp [disadvantage, hp] at h
    | ok e =>
      by_cases hk : e.keep.isSome
      · simp [disadvantage, hp, hk] at h
      · simp only [disadvantage, hp, hk, Bool.false_eq_true, if_false,
          Except.ok.injEq, Prod.mk.injEq] at h
        obtain ⟨hr, -⟩ := h
        rw [← hr]
        by_cases hlt : ((evalNormal rng ((evalNormal rng cur e txt).2) e txt).1).total <
            ((evalNormal rng cur e txt).1).total
        · simp only [if_pos hlt]
          exact evalNormal_invariant rng ((evalNormal rng cur e txt).2) e txt
        · simp only [if_neg hlt]
          exact evalNormal_invariant rng cur e txt

theorem roll_total_invariant_witness :
    roll rng0 0 "2d6-3" = .ok (rollNegDemo, 2) ∧
    rollNegDemo.total = ((rollNegDemo.kept_rolls.sum : Int) + rollNegDemo.modifier) :=
  ⟨by decide, roll_total_invariant.1 rng0 0 "2d6-3" rollNegDemo 2 (by decide)⟩

theorem respondLoop_exit (rng : Nat → Nat) (llm : Nat → LLMResponse) :
    ∀ (n k : Nat) (msgs : List ChatMessage) (st : AgentState) (resp : LLMResponse)
      (tr : List (String × String)), truthyList resp.tool_calls = false →
      respondLoop rng llm n k msgs st resp tr = respondExit k msgs st resp tr := by
  intro n k msgs st resp tr h
  cases n <;> simp [respondLoop, h]

/-- C2 counterexample: a roll_dice call whose arguments omit the required
notation key makes _execute_tool raise a KeyError (modelled as an Except
error) instead of returning an error result string to the model. -/
theorem execute_tool_missing_key_cex :
    execute_tool rng0 initState "roll_dice" [("purpose", "Attack roll")] =
      .error (.keyError "notation") := by decide

/-- C2 (amended): _execute_tool performs no argument validation. A tool call
missing a required key raises a KeyError, a malformed dice text raises from
the dice roller, and such an exception propagates out of respond's dispatch
loop, aborting the turn, rather than being returned to the model as an error
result string. -/
theorem missing_key_raises :
    (∀ rng st args, args.lookup "notation" = none →
        execute_tool rng st "roll_dice" args = .error (.keyError "notation")) ∧
    (∀ rng st args nt, args.lookup "notation" = some nt →
        args.lookup "purpose" = none →
        execute_tool rng st "roll_dice" args = .error (.keyError "purpose")) ∧
    (∀ rng st args, args.lookup "title" = none →
        execute_tool rng st "start_scene" args = .error (.keyError "title")) ∧
    (∀ rng st args t, args.lookup "title" = some t →
        args.lookup "location" = none →
        execute_tool rng st "start_scene" args = .error (.keyError "location")) ∧
    (∀ rng st args, args.lookup "event_type" = none →
        execute_tool rng st "log_event" args = .error (.keyError "event_type")) ∧
    (∀ rng st args et, args.lookup "event_type" = some et →
        args.lookup "content" = none →
        execute_tool rng st "log_event" args = .error (.keyError "content")) ∧
    (∀ rng st args nt p pe, args.lookup "notation" = some nt →
        args.lookup "purpose" = some p → args.lookup "roll_type" = none →
        parse nt = .error pe →
        execute_tool rng st "roll_dice" args = .error (.diceError (.parseErr pe))) ∧
    (∀ rng llm fuel pm st c tc,
        llm 0 = { content := c, tool_calls := some [tc] } →
        tc.function.name = "roll_dice" →
        tc.function.arguments.lookup "notation" = none →
        1 ≤ fuel →
        respond rng llm fuel pm st = .error (.keyError "notation")) := by
  refine ⟨?_, ?_, ?_, ?_, ?_, ?_, ?_, ?_⟩
  · intro rng st args h
    simp [execute_tool, h]
  · intro rng st args nt h1 h2
    simp [execute_tool, h1, h2]
  · intro rng st args h
    simp [execute_tool, h]
  · intro rng st args t h1 h2
    simp [execute_tool, h1, h2]
  · intro rng st args h
    simp [execute_tool, h]
  · intro rng st args et h1 h2
    simp [execute_tool, h1, h2]
  · intro rng st args nt p pe h1 h2 h3 hpe
    simp [execute_tool, h1, h2, h3, roll, hpe]
  · intro rng llm fuel pm st c tc h0 hn hk hf
    obtain ⟨n, rfl⟩ : ∃ n, fuel = n + 1 := ⟨fuel - 1, by omega⟩
    simp only [respond, h0]
    simp [respondLoop, truthyList, respondRound, toolLoop, hn,
      exec_roll_missing_nt rng _ _ hk]

theorem missing_key_raises_witness :
    ([("purpose", "x")] : Args).lookup "notation" = none ∧
    execute_tool rng0 initState "roll_dice" [("purpose", "x")] =
      .error (.keyError "notation") ∧
    execute_tool rng0 initState "roll_dice" [("notation", "d20")] =
      .error (.keyError "purpose") ∧
    execute_tool rng0 initState "start_scene" [] = .error (.keyError "title") ∧
    execute_tool rng0 initState "start_scene" [("title", "A")] =
      .error (.keyError "location") ∧
    execute_tool rng0 initState "log_event" [] = .error (.keyError "event_type") ∧
    execute_tool rng0 initState "log_event" [("event_type", "system")] =
      .error (.keyError "content") ∧
    execute_tool rng0 initState "roll_dice" [("notation", "abc"), ("purpose", "x")] =
      .error (.diceError (.parseErr .missingSeparator)) ∧
    respond rng0 llmBadRoll 3 "hi" initState = .error (.keyError "notation") :=
  ⟨rfl
  , missing_key_raises.1 rng0 initState [("purpose", "x")] rfl
  , missing_key_raises.2.1 rng0 initState [("notation", "d20")] "d20" rfl rfl
  , missing_key_raises.2.2.1 rng0 initState [] rfl
  , missing_key_raises.2.2.2.1 rng0 initState [("title", "A")] "A" rfl rfl
  , missing_key_raises.2.2.2.2.1 rng0 initState [] rfl
  , missing_key_raises.2.2.2.2.2.1 rng0 initState [("event_type", "system")] "system" rfl rfl
  , missing_key_raises.2.2.2.2.2.2.1 rng0 initState [("notation", "abc"), ("purpose", "x")]
      "abc" "x" .missingSeparator rfl rfl rfl (by decide)
  , missing_key_raises.2.2.2.2.2.2.2 rng0 llmBadRoll 3 "hi" initState (some "") tcBadRoll
      rfl rfl rfl (by omega)⟩

/-- C7: when the model's first response carries no tool calls, respond makes
exactly one model call, executes no tools, returns the response's content
(the empty string for falsy content), and appends a narration event exactly
when the content is truthy. -/
theorem respond_no_tool_calls (rng : Nat → Nat) (llm : Nat → LLMResponse)
    (fuel : Nat) (pm : String) (st : AgentState)
    (h : truthyList (llm 0).tool_calls = false) :
    ∃ r, respond rng llm fuel pm st = .ok (some r) ∧
      r.modelCalls = 1 ∧ r.toolTrace = [] ∧
      r.final = (llm 0).content.getD "" ∧
      r.state.events =
        (log_event st "player_action" pm "Player" []).events ++
          (if truthyStr (llm 0).content then
            [{ event_type := "narration", content := (llm 0).content.getD ""
             , actor := "DM", metadata := [] }]
          else []) := by
  unfold respond
  rw [respondLoop_exit rng llm fuel 1 _ _ _ _ h]
  unfold respondExit
  refine ⟨_, rfl, rfl, rfl, rfl, ?_⟩
  by_cases hc : truthyStr (llm 0).content = true
  · simp [hc, log_event]
  · simp only [Bool.not_eq_true] at hc
    simp [hc]

theorem respond_no_tool_calls_witness :
    truthyList (llmNarration 0).tool_calls = false ∧
    (∃ r, respond rng0 llmNarration 3 "I enter" initState = .ok (some r) ∧
      r.modelCalls = 1 ∧ r.toolTrace = [] ∧
      r.final = (llmNarration 0).content.getD "" ∧
      r.state.events =
        (log_event initState "player_action" "I enter" "Player" []).events ++
          (if truthyStr (llmNarration 0).content then
            [{ event_type := "narration", content := (llmNarration 0).content.getD ""
             , actor := "DM", metadata := [] }]
          else [])) :=
  ⟨by decide, respond_no_tool_calls rng0 llmNarration 3 "I enter" initState (by decide)⟩

theorem seqResults_length (rng : Nat → Nat) :
    ∀ (tcs : List ToolCall) (st : AgentState) (rs : List String) (st2 : AgentState),
      seqResults rng st tcs = .ok (rs, st2) → rs.length = tcs.length := by
  intro tcs
  induction tcs with
  | nil =>
    intro st rs st2 h
    simp only [seqResults, Except.ok.injEq, Prod.mk.injEq] at h
    obtain ⟨h1, -⟩ := h
    simp [← h1]
  | cons tc rest ih =>
    intro st rs st2 h
    simp only [seqResults] at h
    cases he : execute_tool rng st tc.function.name tc.function.arguments with
    | error e => rw [he] at h; simp at h
    | ok pr =>
      obtain ⟨r, st1⟩ := pr
      rw [he] at h
      simp only [] at h
      cases hs : seqResults rng st1 rest with
      | error e => rw [hs] at h; simp at h
      | ok pr2 =>
        obtain ⟨rs2, st3⟩ := pr2
        rw [hs] at h
        simp only [Except.ok.injEq, Prod.mk.injEq] at h
        obtain ⟨h1, -⟩ := h
        rw [← h1]
        simp [ih st1 rs2 st3 hs]

theorem toolLoop_eq (rng : Nat → Nat) :
    ∀ (tcs : List ToolCall) (msgs : List ChatMessage) (st : AgentState)
      (tr : List (String × String)),
      toolLoop rng tcs msgs st tr =
        match seqResults rng st tcs with
        | .error e => .error e
        | .ok (rs, st2) =>
          .ok (msgs ++ List.zipWith (fun tc r => toolResultMsg tc.id r) tcs rs,
               st2, tr ++ List.zipWith (fun tc r => (tc.function.name, r)) tcs rs) := by
  intro tcs
  induction tcs with
  | nil => intro msgs st tr; simp [toolLoop, seqResults]
  | cons tc rest ih =>
    intro msgs st tr
    simp only [toolLoop, seqResults]
    cases he : execute_tool rng st tc.function.name tc.function.arguments with
    | error e => simp
    | ok pr =>
      obtain ⟨r, st1⟩ := pr
      simp only []
      rw [ih]
      cases hs : seqResults rng st1 rest with
      | error e => simp [hs]
      | ok pr2 =>
        obtain ⟨rs2, st3⟩ := pr2
        simp [hs]

/-- C6: a response carrying tool calls contributes exactly one assistant
message preserving its tool-call list, followed by one tool-role result
message per call tagged with that call's correlation id; the calls are
executed in the order received (each result is the execution of its call in
the state left by the previous calls), and the next model response enters
the loop only after this round completes. -/
theorem respond_round_appends (rng : Nat → Nat) (msgs : List ChatMessage)
    (st : AgentState) (resp : LLMResponse) (msgs2 : List ChatMessage)
    (st2 : AgentState) (tr : List (String × String))
    (h : respondRound rng msgs st resp = .ok (msgs2, st2, tr)) :
    ∃ rs stF, seqResults rng st (resp.tool_calls.getD []) = .ok (rs, stF) ∧
      rs.length = (resp.tool_calls.getD []).length ∧
      st2 = stF ∧
      msgs2 = msgs ++ assistantMsg resp (resp.tool_calls.getD []) ::
        List.zipWith (fun tc r => toolResultMsg tc.id r) (resp.tool_calls.getD []) rs ∧
      tr = List.zipWith (fun tc r => (tc.function.name, r)) (resp.tool_calls.getD []) rs ∧
      (∀ (llm : Nat → LLMResponse) (n k : Nat) (trAcc : List (String × String)),
        truthyList resp.tool_calls = true →
        respondLoop rng llm (n + 1) k msgs st resp trAcc =
          respondLoop rng llm n (k + 1) msgs2 st2 (llm k) (trAcc ++ tr)) := by
  have hr := h
  unfold respondRound at hr
  rw [toolLoop_eq] at hr
  cases hs : seqResults rng st (resp.tool_calls.getD []) with
  | error e => rw [hs] at hr; simp at hr
  | ok pr =>
    obtain ⟨rs, stF⟩ := pr
    rw [hs] at hr
    simp only [Except.ok.injEq, Prod.mk.injEq] at hr
    obtain ⟨hm, hstf, htr⟩ := hr
    refine ⟨rs, stF, rfl, seqResults_length rng _ st rs stF hs, hstf.symm, ?_, ?_, ?_⟩
    · rw [← hm]; simp
    · rw [← htr]; simp
    · intro llm n k trAcc htc
      simp [respondLoop, htc, h]

set_option maxRecDepth 10000 in
theorem respond_round_appends_witness :
    respondRound rng0 [] initState respDemo = .ok (msgsDemo, stDemo, trDemo) ∧
    (∃ rs stF, seqResults rng0 initState (respDemo.tool_calls.getD []) = .ok (rs, stF) ∧
      rs.length = (respDemo.tool_calls.getD []).length ∧
      stDemo = stF ∧
      msgsDemo = [] ++ assistantMsg respDemo (respDemo.tool_calls.getD []) ::
        List.zipWith (fun tc r => toolResultMsg tc.id r) (respDemo.tool_calls.getD []) rs ∧
      trDemo = List.zipWith (fun tc r => (tc.function.name, r)) (respDemo.tool_calls.getD []) rs ∧
      (∀ (llm : Nat → LLMResponse) (n k : Nat) (trAcc : List (String × String)),
        truthyList respDemo.tool_calls = true →
        respondLoop rng0 llm (n + 1) k [] initState respDemo trAcc =
          respondLoop rng0 llm n (k + 1) msgsDemo stDemo (llm k) (trAcc ++ trDemo))) :=
  ⟨by decide, respond_round_appends rng0 [] initState respDemo msgsDemo stDemo trDemo (by decide)⟩

theorem exceptOk_exists {ε α : Type} (x : Except ε α) (h : exceptOk x = true) :
    ∃ a, x = .ok a := by
  cases x with
  | error e => simp [exceptOk] at h
  | ok a => exact ⟨a, rfl⟩

theorem exec_roll_ok (args : Args) (h : rollArgsOk args = true) (rng : Nat → Nat)
    (st : AgentState) :
    ∃ res st2, execute_tool rng st "roll_dice" args = .ok (res, st2) := by
  unfold rollArgsOk at h
  cases h1 : args.lookup "notation" with
  | none => rw [h1] at h; simp at h
  | some nt =>
    rw [h1] at h
    simp only [] at h
    cases h2 : args.lookup "purpose" with
    | none => rw [h2] at h; simp at h
    | some p =>
      rw [h2] at h
      simp only [] at h
      cases hp : parse nt with
      | error e => rw [hp] at h; simp at h
      | ok e =>
        rw [hp] at h
        simp only [] at h
        by_cases hadv : ((args.lookup "roll_type").getD "normal") = "advantage"
        · have hkn : e.keep = none := by
            simp only [hadv] at h
            simpa [Option.isNone_iff_eq_none] using h
          have hrOk : exceptOk (advantage rng st.rngCursor nt) = true := by
            simp [advantage, exceptOk, hp, hkn]
          obtain ⟨out, hout⟩ := exceptOk_exists _ hrOk
          obtain ⟨r1, c1⟩ := out
          have hok : exceptOk (execute_tool rng st "roll_dice" args) = true := by
            simp [execute_tool, exceptOk, h1, h2, hadv, hout]
          obtain ⟨pr, hpr⟩ := exceptOk_exists _ hok
          exact ⟨pr.1, pr.2, by rw [hpr]⟩
        · by_cases hdis : ((args.lookup "roll_type").getD "normal") = "disadvantage"
          · have hkn : e.keep = none := by
              simp only [hdis] at h
              simpa [Option.isNone_iff_eq_none] using h
            have hrOk : exceptOk (disadvantage rng st.rngCursor nt) = true := by
              simp [disadvantage, exceptOk, hp, hkn]
            obtain ⟨out, hout⟩ := exceptOk_exists _ hrOk
            obtain ⟨r1, c1⟩ := out
            have hok : exceptOk (execute_tool rng st "roll_dice" args) = true := by
              simp [execute_tool, exceptOk, h1, h2, hadv, hdis, hout]
            obtain ⟨pr, hpr⟩ := exceptOk_exists _ hok
            exact ⟨pr.1, pr.2, by rw [hpr]⟩
          · have hrOk : exceptOk (roll rng st.rngCursor nt) = true := by
              simp [roll, exceptOk, hp]
            obtain ⟨out, hout⟩ := exceptOk_exists _ hrOk
            obtain ⟨r1, c1⟩ := out
            have hok : exceptOk (execute_tool rng st "roll_dice" args) = true := by
              simp [execute_tool, exceptOk, h1, h2, hadv, hdis, hout]
            obtain ⟨pr, hpr⟩ := exceptOk_exists _ hok
            exact ⟨pr.1, pr.2, by rw [hpr]⟩

/-- C5: if the first model response carries exactly one roll_dice tool call
with executable arguments and the second response carries no tool calls,
respond makes exactly two model calls, executes exactly one tool, and
returns the second response's content as the final narration. -/
theorem respond_single_roll (rng : Nat → Nat) (llm : Nat → LLMResponse)
    (fuel : Nat) (pm : String) (st : AgentState) (c1 : Option String) (tc : ToolCall)
    (h0 : llm 0 = { content := c1, tool_calls := some [tc] })
    (hn : tc.function.name = "roll_dice")
    (ha : rollArgsOk tc.function.arguments = true)
    (h1 : truthyList (llm 1).tool_calls = false)
    (hf : 1 ≤ fuel) :
    ∃ r, respond rng llm fuel pm st = .ok (some r) ∧
      r.modelCalls = 2 ∧ r.toolTrace.length = 1 ∧
      r.final = (llm 1).content.getD "" := by
  obtain ⟨n, rfl⟩ : ∃ n, fuel = n + 1 := ⟨fuel - 1, by omega⟩
  simp only [respond, h0]
  obtain ⟨res, st1, he⟩ :=
    exec_roll_ok tc.function.arguments ha rng (log_event st "player_action" pm "Player" [])
  simp only [respondLoop, truthyList, List.isEmpty_cons, Bool.not_false, if_true]
  simp only [respondRound, Option.getD_some, toolLoop]
  rw [hn, he]
  simp only []
  rw [respondLoop_exit rng llm n 2 _ _ _ _ h1]
  exact ⟨_, rfl, rfl, rfl, rfl⟩

theorem respond_single_roll_witness :
    llmTwoCall 0 = { content := some "Rolling...", tool_calls := some [tcRoll] } ∧
    rollArgsOk tcRoll.function.arguments = true ∧
    truthyList (llmTwoCall 1).tool_calls = false ∧
    (∃ r, respond rng0 llmTwoCall 5 "I attack" initState = .ok (some r) ∧
      r.modelCalls = 2 ∧ r.toolTrace.length = 1 ∧
      r.final = (llmTwoCall 1).content.getD "") :=
  ⟨rfl, by decide, by decide
  , respond_single_roll rng0 llmTwoCall 5 "I attack" initState (some "Rolling...") tcRoll
      rfl rfl (by decide) (by decide) (by omega)⟩

theorem alwaysRoll_loop (rng : Nat → Nat) :
    ∀ (n k : Nat) (msgs : List ChatMessage) (st : AgentState)
      (tr : List (String × String)),
      respondLoop rng alwaysRoll n k msgs st alwaysResp tr = .ok none := by
  intro n
  induction n with
  | zero =>
    intro k msgs st tr
    simp [respondLoop, alwaysResp, truthyList]
  | succ m ih =>
    intro k msgs st tr
    obtain ⟨res, st1, he⟩ := exec_roll_ok tcRoll.function.arguments (by decide) rng st
    simp only [respondLoop, alwaysResp, truthyList, List.isEmpty_cons, Bool.not_false, if_true]
    simp only [respondRound, Option.getD_some, toolLoop]
    rw [show tcRoll.function.name = "roll_dice" from rfl, he]
    simp only []
    exact ih (k + 1) _ _ _

/-- C1 counterexample: with a model that always returns a well-formed
roll_dice call, fifty rounds of the dispatch loop still do not reach a final
response: the source loop has no configured maximum, no force-termination
and no truncation flag. -/
theorem dispatch_loop_cex :
    respond rng0 alwaysRoll 50 "Hello" initState = .ok none := by
  simp only [respond]
  exact alwaysRoll_loop rng0 50 1 _ _ []

/-- C1 (amended): the dispatch loop of respond has no round limit: it keeps
issuing model calls for as long as each response carries tool calls, and
with a model that always returns a tool call it never completes — for every
round budget the loop is still running, with no surfaced content and no
truncation flag. -/
theorem dispatch_loop_unbounded (rng : Nat → Nat) (fuel : Nat) (pm : String)
    (st : AgentState) :
    respond rng alwaysRoll fuel pm st = .ok none := by
  simp only [respond]
  exact alwaysRoll_loop rng fuel 1 _ _ []

theorem streamToolLoop_eq (rng : Nat → Nat) :
    ∀ (tcs : List ToolCall) (msgs : List ChatMessage) (st : AgentState)
      (ys : List String) (tr : List (String × String)),
      streamToolLoop rng tcs msgs st ys tr =
        match seqResults rng st tcs with
        | .error e => .error e
        | .ok (rs, st2) =>
          .ok (msgs ++ List.zipWith (fun tc r => toolResultMsg tc.id r) tcs rs,
               st2,
               ys ++ List.zipWith
                 (fun tc r => "\n[" ++ tc.function.name ++ ": " ++ r ++ "]\n") tcs rs,
               tr ++ List.zipWith (fun tc r => (tc.function.name, r)) tcs rs) := by
  intro tcs
  induction tcs with
  | nil => intro msgs st ys tr; simp [streamToolLoop, seqResults]
  | cons tc rest ih =>
    intro msgs st ys tr
    simp only [streamToolLoop, seqResults]
    cases he : execute_tool rng st tc.function.name tc.function.arguments with
    | error e => simp
    | ok pr =>
      obtain ⟨r, st1⟩ := pr
      simp only []
      rw [ih]
      cases hs : seqResults rng st1 rest with
      | error e => simp [hs]
      | ok pr2 =>
        obtain ⟨rs2, st3⟩ := pr2
        simp [hs]

theorem secondTurn_yields (cs : List StreamChunk) :
    ∀ (accC : String) (ys : List String),
      (secondTurn cs accC ys).2 = ys ++ (secondTurn cs accC []).2 := by
  induction cs with
  | nil => intro accC ys; simp [secondTurn]
  | cons c rest ih =>
    intro accC ys
    cases hc : truthyStr c.content with
    | true =>
      simp only [secondTurn, hc, if_true]
      rw [ih _ (ys ++ [c.content.getD ""]), ih _ ([] ++ [c.content.getD ""])]
      simp [List.append_assoc]
    | false =>
      simp only [secondTurn, hc, Bool.false_eq_true, if_false]
      exact ih accC ys

theorem secondTurn_stripCalls (cs : List StreamChunk) :
    ∀ (accC : String) (ys : List String),
      secondTurn (stripCalls cs) accC ys = secondTurn cs accC ys := by
  induction cs with
  | nil => intro accC ys; simp [stripCalls, secondTurn]
  | cons c rest ih =>
    intro accC ys
    cases hc : truthyStr c.content with
    | true =>
      have hstep : secondTurn (stripCalls (c :: rest)) accC ys =
          secondTurn (stripCalls rest) (accC ++ c.content.getD "")
            (ys ++ [c.content.getD ""]) := by
        simp [stripCalls, secondTurn, hc]
      rw [hstep, ih]
      simp [secondTurn, hc]
    | false =>
      have hstep : secondTurn (stripCalls (c :: rest)) accC ys =
          secondTurn (stripCalls rest) accC ys := by
        simp [stripCalls, secondTurn, hc]
      rw [hstep, ih]
      simp [secondTurn, hc]

theorem map_fst_zipWith_pair {α β γ : Type} (f : α → γ) :
    ∀ (xs : List α) (ys : List β), ys.length = xs.length →
      (List.zipWith (fun x y => (f x, y)) xs ys).map Prod.fst = xs.map f := by
  intro xs
  induction xs with
  | nil => intro ys h; simp
  | cons x xs ih =>
    intro ys h
    cases ys with
    | nil => simp at h
    | cons y ys => simp_all

/-- C3 counterexample: on demoStreams the follow-up model response itself
carries a start_scene tool call, yet respond_stream makes exactly two model
calls, executes only the first turn's roll_dice call, starts no scene and
stops: the execute-and-resubmit looping on follow-up tool calls that the
claim describes does not happen. -/
theorem respond_stream_follow_up_cex :
    respond_stream rng0 demoStreams "go" initState = .ok rDemo := by decide

/-- C3 (amended): respond_stream performs at most one round of tool
execution. Tool calls accumulated from the first streamed turn are executed
in order, each result string yielded before the single follow-up model call
contributes any content; tool calls carried by the follow-up stream are
ignored — they are neither executed nor resubmitted (the outcome is
unchanged if they are erased) and no third model call is made. -/
theorem respond_stream_single_round :
    (∀ (rng : Nat → Nat) (streams streams2 : Nat → List StreamChunk) (pm : String)
        (st : AgentState),
        streams2 0 = streams 0 →
        streams2 1 = stripCalls (streams 1) →
        respond_stream rng streams pm st = respond_stream rng streams2 pm st) ∧
    (∀ (rng : Nat → Nat) (streams : Nat → List StreamChunk) (pm : String)
        (st : AgentState) (r : StreamResult),
        respond_stream rng streams pm st = .ok r →
        r.modelCalls ≤ 2 ∧
        r.toolTrace.map Prod.fst =
          ((streamTurn (streams 0) "" [] []).2.1).map (fun tc => tc.function.name) ∧
        ∃ tys, tys.length = ((streamTurn (streams 0) "" [] []).2.1).length ∧
          r.yields = (streamTurn (streams 0) "" [] []).2.2 ++ tys ++
            followUpYields streams) := by
  constructor
  · intro rng streams streams2 pm st h0 h1
    unfold respond_stream
    rw [h0, h1]
    rcases hacc : streamTurn (streams 0) "" [] [] with ⟨accC, accT, ys⟩
    by_cases he : accT.isEmpty = true
    · simp [he]
    · simp only [he, Bool.false_eq_true, if_false]
      cases hsl : streamToolLoop rng accT
          (initialMessages pm (log_event st "player_action" pm "Player" []) ++
            [{ role := .assistant, content := pyOrNone accC, tool_calls := some accT }])
          (log_event st "player_action" pm "Player" []) ys [] with
      | error e => simp [hsl]
      | ok out =>
        obtain ⟨m2, st1, ys1, tr⟩ := out
        simp [hsl, secondTurn_stripCalls]
  · intro rng streams pm st r h
    simp only [respond_stream] at h
    rcases hacc : streamTurn (streams 0) "" [] [] with ⟨accC, accT, ys⟩
    rw [hacc] at h
    simp only [] at h
    by_cases he : accT.isEmpty = true
    · rw [if_pos he] at h
      simp only [Except.ok.injEq] at h
      have hT : accT = [] := by simpa using he
      refine ⟨by rw [← h]; exact by norm_num, ?_, ⟨[], ?_, ?_⟩⟩
      · rw [← h]; simp [hacc, hT]
      · simp [hacc, hT]
      · rw [← h]
        simp [followUpYields, hacc, hT]
    · rw [if_neg he] at h
      rw [streamToolLoop_eq] at h
      cases hs : seqResults rng (log_event st "player_action" pm "Player" []) accT with
      | error e => rw [hs] at h; simp at h
      | ok pr =>
        obtain ⟨rs, stF⟩ := pr
        rw [hs] at h
        simp only [] at h
        simp only [Except.ok.injEq] at h
        have hlen := seqResults_length rng accT _ rs stF hs
        refine ⟨by rw [← h], ?_, ?_⟩
        · rw [← h]
          simp only [hacc]
          simp only [List.nil_append]
          exact map_fst_zipWith_pair (fun tc => tc.function.name) accT rs hlen
        · refine ⟨List.zipWith
              (fun tc r => "\n[" ++ tc.function.name ++ ": " ++ r ++ "]\n") accT rs, ?_, ?_⟩
          · simp [hacc, hlen]
          · rw [← h]
            simp only [hacc]
            rw [secondTurn_yields]
            have hne : ¬accT.isEmpty = true := he
            simp [followUpYields, hacc, hne, List.append_assoc]

set_option maxRecDepth 10000 in
theorem respond_stream_single_round_witness :
    demoStreamsStripped 0 = demoStreams 0 ∧
    demoStreamsStripped 1 = stripCalls (demoStreams 1) ∧
    respond_stream rng0 demoStreams "go" initState =
      respond_stream rng0 demoStreamsStripped "go" initState ∧
    respond_stream rng0 demoStreams "go" initState = .ok rDemo ∧
    (rDemo.modelCalls ≤ 2 ∧
      rDemo.toolTrace.map Prod.fst =
        ((streamTurn (demoStreams 0) "" [] []).2.1).map (fun tc => tc.function.name) ∧
      ∃ tys, tys.length = ((streamTurn (demoStreams 0) "" [] []).2.1).length ∧
        rDemo.yields = (streamTurn (demoStreams 0) "" [] []).2.2 ++ tys ++
          followUpYields demoStreams) :=
  ⟨rfl, rfl
  , respond_stream_single_round.1 rng0 demoStreams demoStreamsStripped "go" initState rfl rfl
  , by decide
  , respond_stream_single_round.2 rng0 demoStreams "go" initState rDemo (by decide)⟩

theorem getD_falsy (o : Option String) (h : truthyStr o = false) : o.getD "" = "" := by
  cases o with
  | none => rfl
  | some s => simp [truthyStr] at h; simp [h]

theorem pyOrStr_falsy (o : Option String) (d : String) (h : truthyStr o = false) :
    pyOrStr o d = d := by
  cases o with
  | none => rfl
  | some s => simp [truthyStr] at h; simp [pyOrStr, h]

theorem pyOrStr_truthy (o : Option String) (d : String) (h : truthyStr o = true) :
    pyOrStr o d = o.getD "" := by
  cases o with
  | none => simp [truthyStr] at h
  | some s => simp [truthyStr] at h; simp [pyOrStr, h]

theorem mergeDelta_eq (b : Builder) (d : ToolCallDelta) :
    mergeDelta b d =
      { id := if truthyStr d.id then d.id.getD "" else b.id
      , type := if truthyStr d.type then d.type.getD "" else b.type
      , name := if truthyStr (nameOf d) then (nameOf d).getD "" else b.name
      , arguments := b.arguments ++ fragOf d } := by
  unfold mergeDelta nameOf fragOf
  cases hf : d.function with
  | none =>
    cases hid : truthyStr d.id <;> cases hty : truthyStr d.type <;>
      simp [hid, hty, truthyStr]
  | some f =>
    cases hid : truthyStr d.id <;> cases hty : truthyStr d.type <;>
      cases hn : truthyStr f.name <;> cases ha : truthyStr f.arguments <;>
        simp [hid, hty, hn, ha, getD_falsy]

theorem mergeDelta_init (d : ToolCallDelta) :
    mergeDelta { id := pyOrStr d.id "", type := pyOrStr d.type "function"
               , name := "", arguments := "" } d = mergeDelta initBuilder d := by
  rw [mergeDelta_eq, mergeDelta_eq]
  cases hid : truthyStr d.id <;> cases hty : truthyStr d.type <;>
    simp [initBuilder, hid, hty, pyOrStr_falsy, pyOrStr_truthy]

theorem lookup_cons_nat (k j : Nat) (b : Builder) (rest : List (Nat × Builder)) :
    (((k, b) :: rest).lookup j) = if j = k then some b else rest.lookup j := by
  by_cases hj : j = k
  · simp [List.lookup, hj]
  · have hb : (j == k) = false := by
      rw [beq_eq_false_iff_ne]; exact hj
    simp [List.lookup, hb, hj]

theorem lookup_updateAt (acc : List (Nat × Builder)) (i j : Nat) (f : Builder → Builder) :
    (updateAt acc i f).lookup j = if j = i then (acc.lookup j).map f else acc.lookup j := by
  induction acc with
  | nil =>
    simp only [updateAt, List.map_nil]
    by_cases hj : j = i <;> simp [hj]
  | cons p rest ih =>
    obtain ⟨k, b⟩ := p
    simp only [updateAt, List.map_cons] at ih ⊢
    by_cases hk : k = i
    · subst hk
      by_cases hj : j = k
      · subst hj
        simp [lookup_cons_nat]
      · simp [lookup_cons_nat, hj, ih]
    · by_cases hj : j = k
      · subst hj
        simp [lookup_cons_nat, hk, if_neg hk]
      · simp [lookup_cons_nat, hj, hk, ih]

theorem lookup_append_single (acc : List (Nat × Builder)) (k : Nat) (b : Builder)
    (j : Nat) :
    ((acc ++ [(k, b)]).lookup j) =
      match acc.lookup j with
      | some v => some v
      | none => if j = k then some b else none := by
  induction acc with
  | nil => simp [lookup_cons_nat]
  | cons p rest ih =>
    obtain ⟨k2, b2⟩ := p
    by_cases hj : j = k2
    · simp [lookup_cons_nat, hj]
    · simp [lookup_cons_nat, hj, ih]

theorem lookup_applyDelta (acc : List (Nat × Builder)) (d : ToolCallDelta) (i : Nat) :
    (applyDelta acc d).lookup i =
      if i = d.index then some (mergeDelta ((acc.lookup i).getD initBuilder) d)
      else acc.lookup i := by
  unfold applyDelta
  cases hmem : acc.lookup d.index with
  | some b0 =>
    simp only [hmem, Option.isSome_some, if_true]
    rw [lookup_updateAt]
    by_cases hi : i = d.index
    · subst hi
      simp [hmem]
    · simp [hi]
  | none =>
    simp only [hmem, Option.isSome_none, Bool.false_eq_true, if_false]
    rw [lookup_updateAt]
    by_cases hi : i = d.index
    · subst hi
      rw [lookup_append_single, hmem]
      simp [mergeDelta_init d]
    · rw [lookup_append_single]
      cases hli : acc.lookup i with
      | some v => simp [hli, hi]
      | none => simp [hli, hi]

theorem lookup_foldl_applyDelta :
    ∀ (ds : List ToolCallDelta) (acc : List (Nat × Builder)) (i : Nat),
      ((ds.foldl applyDelta acc).lookup i) =
        match acc.lookup i with
        | some b => some ((deltasFor i ds).foldl mergeDelta b)
        | none =>
          if ds.any (fun d => d.index == i) then
            some ((deltasFor i ds).foldl mergeDelta initBuilder)
          else none := by
  intro ds
  induction ds with
  | nil =>
    intro acc i
    simp only [List.foldl_nil, deltasFor, List.filter_nil, List.any_nil]
    cases acc.lookup i <;> simp
  | cons d rest ih =>
    intro acc i
    simp only [List.foldl_cons]
    rw [ih]
    rw [lookup_applyDelta]
    by_cases hi : i = d.index
    · have hb : (d.index == i) = true := by simp [hi]
      have hfil : deltasFor i (d :: rest) = d :: deltasFor i rest := by
        simp [deltasFor, List.filter, hb]
      rw [if_pos hi]
      cases hacc : acc.lookup i with
      | none => simp [hacc, hfil, hb, List.any_cons]
      | some b => simp [hacc, hfil]
    · have hb : (d.index == i) = false := by
        rw [beq_eq_false_iff_ne]
        exact fun hcc => hi hcc.symm
      have hfil : deltasFor i (d :: rest) = deltasFor i rest := by
        simp [deltasFor, List.filter, hb]
      rw [if_neg hi]
      cases hacc : acc.lookup i with
      | none => simp [hacc, hfil, hb, List.any_cons]
      | some b => simp [hacc, hfil]

theorem foldl_mergeDelta (ds : List ToolCallDelta) :
    ∀ b : Builder, ds.foldl mergeDelta b =
      { id := lastTruthy b.id (ds.map ToolCallDelta.id)
      , type := lastTruthy b.type (ds.map ToolCallDelta.type)
      , name := lastTruthy b.name (ds.map nameOf)
      , arguments := b.arguments ++ concatFrags ds } := by
  induction ds with
  | nil => intro b; simp [lastTruthy, concatFrags]
  | cons d rest ih =>
    intro b
    simp only [List.foldl_cons, List.map_cons, lastTruthy, concatFrags]
    rw [ih (mergeDelta b d), mergeDelta_eq]
    simp [String.append_assoc]

theorem merged_from_init (ds : List ToolCallDelta) :
    ds.foldl mergeDelta initBuilder = mergedBuilder ds := by
  rw [foldl_mergeDelta]
  simp [initBuilder, mergedBuilder]

theorem processChunk_tool_calls_none (pj : String → Args) (acc : List (Nat × Builder))
    (outs : List StreamChunk) (rc : RawChunk)
    (hinv : ∀ o ∈ outs, o.tool_calls = none ∨ truthyStr o.finish_reason = true) :
    ∀ o ∈ (processChunk pj (acc, outs) rc).2,
      o.tool_calls = none ∨ truthyStr o.finish_reason = true := by
  unfold processChunk
  cases hch : rc.choices with
  | nil => simpa using hinv
  | cons choice crest =>
    simp only []
    intro o ho
    by_cases hf : truthyStr choice.finish_reason = true
    · rw [if_pos hf] at ho
      simp only [] at ho
      rcases List.mem_append.mp ho with h1 | h1
      · by_cases hc : truthyStr choice.content = true
        · rw [if_pos hc] at h1
          rcases List.mem_append.mp h1 with h2 | h2
          · exact hinv o h2
          · left
            rw [List.mem_singleton.mp h2]
        · rw [if_neg hc] at h1
          exact hinv o h1
      · right
        rw [List.mem_singleton.mp h1]
        exact hf
    · rw [if_neg hf] at ho
      simp only [] at ho
      by_cases hc : truthyStr choice.content = true
      · rw [if_pos hc] at ho
        rcases List.mem_append.mp ho with h2 | h2
        · exact hinv o h2
        · left
          rw [List.mem_singleton.mp h2]
      · rw [if_neg hc] at ho
        exact hinv o ho

theorem chat_stream_mid_no_calls (pj : String → Args) :
    ∀ (chunks : List RawChunk) (acc : List (Nat × Builder)) (outs : List StreamChunk),
      (∀ o ∈ outs, o.tool_calls = none ∨ truthyStr o.finish_reason = true) →
      ∀ o ∈ (chunks.foldl (processChunk pj) (acc, outs)).2,
        o.tool_calls = none ∨ truthyStr o.finish_reason = true := by
  intro chunks
  induction chunks with
  | nil => intro acc outs hinv; simpa using hinv
  | cons rc rest ih =>
    intro acc outs hinv
    simp only [List.foldl_cons]
    have h2 := processChunk_tool_calls_none pj acc outs rc hinv
    rcases hpc : processChunk pj (acc, outs) rc with ⟨acc1, outs1⟩
    rw [hpc] at h2
    exact ih acc1 outs1 h2

theorem allDeltas_append (xs ys : List RawChunk) :
    allDeltas (xs ++ ys) = allDeltas xs ++ allDeltas ys := by
  induction xs with
  | nil => simp [allDeltas]
  | cons x xs ih => simp [allDeltas, ih, List.append_assoc]

theorem foldl_no_finish (pj : String → Args) :
    ∀ (body : List RawChunk) (acc : List (Nat × Builder)) (outs : List StreamChunk),
      body.all (fun rc => !chunkFinish rc) = true →
      ∃ couts, body.foldl (processChunk pj) (acc, outs) =
          ((allDeltas body).foldl applyDelta acc, outs ++ couts) ∧
        ∀ o ∈ couts, o.tool_calls = none := by
  intro body
  induction body with
  | nil =>
    intro acc outs h
    exact ⟨[], by simp [allDeltas], by simp⟩
  | cons rc rest ih =>
    intro acc outs h
    simp only [List.all_cons, Bool.and_eq_true] at h
    obtain ⟨hrc, hrest⟩ := h
    simp only [List.foldl_cons]
    have hstep : ∃ newouts, processChunk pj (acc, outs) rc =
        ((deltasOfChunk rc).foldl applyDelta acc, outs ++ newouts) ∧
        ∀ o ∈ newouts, o.tool_calls = none := by
      unfold processChunk deltasOfChunk
      cases hch : rc.choices with
      | nil => exact ⟨[], by simp, by simp⟩
      | cons choice crest =>
        have hf : truthyStr choice.finish_reason = false := by
          unfold chunkFinish at hrc
          rw [hch] at hrc
          simpa using hrc
        simp only []
        rw [if_neg (by simp [hf])]
        by_cases hc : truthyStr choice.content = true
        · refine ⟨[{ content := choice.content, tool_calls := none
                   , finish_reason := choice.finish_reason }], ?_, ?_⟩
          · by_cases ht : truthyList choice.tool_calls = true
            · simp [hc, ht]
            · simp [hc, ht]
          · intro o ho
            rw [List.mem_singleton.mp ho]
        · refine ⟨[], ?_, ?_⟩
          · by_cases ht : truthyList choice.tool_calls = true
            · simp [hc, ht]
            · simp [hc, ht]
          · simp
    obtain ⟨newouts, heq, hnew⟩ := hstep
    rw [heq]
    obtain ⟨couts2, heq2, hc2⟩ :=
      ih ((deltasOfChunk rc).foldl applyDelta acc) (outs ++ newouts) hrest
    refine ⟨newouts ++ couts2, ?_, ?_⟩
    · rw [heq2]
      have hall : allDeltas (rc :: rest) = deltasOfChunk rc ++ allDeltas rest := rfl
      rw [hall, List.foldl_append]
      simp [List.append_assoc]
    · intro o ho
      rcases List.mem_append.mp ho with h1 | h1
      · exact hnew o h1
      · exact hc2 o h1

theorem chat_stream_finish_structure (pj : String → Args) (body : List RawChunk)
    (lc : DeltaChoice) (lrest : List DeltaChoice)
    (hall : body.all (fun rc => !chunkFinish rc) = true)
    (hfin : truthyStr lc.finish_reason = true) :
    ∃ outs0,
      chat_stream pj (body ++ [{ choices := lc :: lrest }]) =
        outs0 ++
          [{ content := none
           , tool_calls :=
               if ((allDeltas (body ++ [{ choices := lc :: lrest }])).foldl applyDelta []).isEmpty
               then none
               else some
                 (((allDeltas (body ++ [{ choices := lc :: lrest }])).foldl applyDelta []).map
                   (fun p => finalizeBuilder pj p.2))
           , finish_reason := lc.finish_reason }] ∧
      ∀ o ∈ outs0, o.tool_calls = none := by
  obtain ⟨couts, heq, hnone⟩ := foldl_no_finish pj body [] [] hall
  have haccF :
      (allDeltas (body ++ [({ choices := lc :: lrest } : RawChunk)])).foldl applyDelta [] =
        (deltasOfChunk { choices := lc :: lrest }).foldl applyDelta
          ((allDeltas body).foldl applyDelta []) := by
    rw [allDeltas_append, List.foldl_append]
    simp [allDeltas]
  rw [haccF]
  unfold chat_stream
  rw [List.foldl_append, heq]
  simp only [List.foldl_cons, List.foldl_nil]
  unfold processChunk deltasOfChunk
  simp only []
  rw [if_pos hfin]
  by_cases ht : truthyList lc.tool_calls = true
  · by_cases hc : truthyStr lc.content = true
    · refine ⟨couts ++
          [{ content := lc.content, tool_calls := none, finish_reason := lc.finish_reason }],
          ?_, ?_⟩
      · simp [ht, hc, List.append_assoc]
      · intro o ho
        rcases List.mem_append.mp ho with h1 | h1
        · exact hnone o h1
        · rw [List.mem_singleton.mp h1]
    · refine ⟨couts, ?_, hnone⟩
      simp [ht, hc]
  · by_cases hc : truthyStr lc.content = true
    · refine ⟨couts ++
          [{ content := lc.content, tool_calls := none, finish_reason := lc.finish_reason }],
          ?_, ?_⟩
      · simp [ht, hc, List.append_assoc]
      · intro o ho
        rcases List.mem_append.mp ho with h1 | h1
        · exact hnone o h1
        · rw [List.mem_singleton.mp h1]
    · refine ⟨couts, ?_, hnone⟩
      simp [ht, hc]

/-- C8: in chat_stream, tool-call deltas sharing a positional index are
merged into one accumulated builder — argument text fragments concatenate
in arrival order while id, type and name are overwritten whenever a truthy
value arrives (second conjunct); every chunk yielded mid-stream carries no
structured tool calls (first conjunct); and when the turn-completion signal
is the last chunk's, the one finish chunk carries the tool calls finalized
from the fully accumulated argument text, handed to the JSON decoder only
at that point (third conjunct). -/
theorem stream_accumulation :
    (∀ (pj : String → Args) (chunks : List RawChunk) (out : StreamChunk),
        out ∈ chat_stream pj chunks → out.tool_calls ≠ none →
        truthyStr out.finish_reason = true) ∧
    (∀ (ds : List ToolCallDelta) (i : Nat),
        ((ds.foldl applyDelta []).lookup i) =
          if ds.any (fun d => d.index == i) then some (mergedBuilder (deltasFor i ds))
          else none) ∧
    (∀ (pj : String → Args) (body : List RawChunk) (lc : DeltaChoice)
        (lrest : List DeltaChoice),
        body.all (fun rc => !chunkFinish rc) = true →
        truthyStr lc.finish_reason = true →
        ∃ outs0,
          chat_stream pj (body ++ [{ choices := lc :: lrest }]) =
            outs0 ++
              [{ content := none
               , tool_calls :=
                   if ((allDeltas (body ++ [{ choices := lc :: lrest }])).foldl
                       applyDelta []).isEmpty
                   then none
                   else some
                     (((allDeltas (body ++ [{ choices := lc :: lrest }])).foldl
                         applyDelta []).map (fun p => finalizeBuilder pj p.2))
               , finish_reason := lc.finish_reason }] ∧
          ∀ o ∈ outs0, o.tool_calls = none) := by
  refine ⟨?_, ?_, ?_⟩
  · intro pj chunks out hmem hne
    rcases chat_stream_mid_no_calls pj chunks [] [] (by simp) out hmem with h | h
    · exact absurd h hne
    · exact h
  · intro ds i
    rw [lookup_foldl_applyDelta ds [] i]
    simp only [List.lookup]
    rw [merged_from_init]
  · exact chat_stream_finish_structure

theorem stream_accumulation_witness :
    (finishChunkDemo ∈ chat_stream pjDemo demoChunks ∧
      finishChunkDemo.tool_calls ≠ none ∧
      truthyStr finishChunkDemo.finish_reason = true) ∧
    (([deltaA, deltaB].foldl applyDelta []).lookup 0 =
      if [deltaA, deltaB].any (fun d => d.index == 0)
      then some (mergedBuilder (deltasFor 0 [deltaA, deltaB]))
      else none) ∧
    (bodyDemo.all (fun rc => !chunkFinish rc) = true ∧
      truthyStr lcDemo.finish_reason = true ∧
      ∃ outs0,
        chat_stream pjDemo (bodyDemo ++ [{ choices := [lcDemo] }]) =
          outs0 ++
            [{ content := none
             , tool_calls :=
                 if ((allDeltas (bodyDemo ++ [{ choices := [lcDemo] }])).foldl
                     applyDelta []).isEmpty
                 then none
                 else some
                   (((allDeltas (bodyDemo ++ [{ choices := [lcDemo] }])).foldl
                       applyDelta []).map (fun p => finalizeBuilder pjDemo p.2))
             , finish_reason := lcDemo.finish_reason }] ∧
        ∀ o ∈ outs0, o.tool_calls = none) :=
  ⟨⟨by decide, by decide,
      stream_accumulation.1 pjDemo demoChunks finishChunkDemo (by decide) (by decide)⟩
  , stream_accumulation.2.1 [deltaA, deltaB] 0
  , by decide, by decide
  , stream_accumulation.2.2 pjDemo bodyDemo lcDemo [] (by decide) (by decide)⟩

end RpgDm
